import Mathlib

/-
  Verification of the silicube sandbox-orchestration library.

  The definitions below are a shallow embedding of the Rust sources under
  crates/silicube/src: string operations of the Rust standard library are
  re-implemented over the character list of a string so that every definition
  evaluates inside the kernel, pure functions are translated directly, and the
  effectful parts (filesystem probes, the supervisor subprocess, the pool
  semaphore) are made explicit as parameters or as small transition systems.
-/

namespace Silicube

/-! ## Embedding of the Rust string operations used by the sources -/

/-- Boolean test that `pat` occurs as a contiguous sublist of `l`. -/
def listIsInfix (pat : List Char) : List Char → Bool
  | [] => pat.isPrefixOf []
  | a :: as => pat.isPrefixOf (a :: as) || listIsInfix pat as

/-- Embedding of Rust `str::contains(pat)`: substring containment, via infix of
the character lists. -/
def strContains (s pat : String) : Bool :=
  listIsInfix pat.data s.data

/-- Embedding of Rust `str::starts_with(pat)`. -/
def strStartsWith (s pat : String) : Bool :=
  List.isPrefixOf pat.data s.data

/-- Embedding of Rust `str::trim`: drop leading and trailing whitespace. -/
def strTrim (s : String) : String :=
  ⟨((s.data.dropWhile Char.isWhitespace).reverse.dropWhile Char.isWhitespace).reverse⟩

/-- Embedding of Rust `str::to_lowercase` (character-wise lowering). -/
def strToLower (s : String) : String :=
  ⟨s.data.map Char.toLower⟩

/-- Split a character list at every occurrence of a separator character,
keeping empty segments, as Rust `str::split(c)` does. -/
def splitChar (c : Char) : List Char → List (List Char)
  | [] => [[]]
  | a :: as =>
    if a = c then [] :: splitChar c as
    else
      match splitChar c as with
      | [] => [[a]]
      | l :: ls => (a :: l) :: ls

/-- Embedding of Rust `str::split(':')` producing strings. -/
def splitColon (s : String) : List String :=
  (splitChar (Char.ofNat 58) s.data).map (fun l => ⟨l⟩)

/-- Remove one trailing carriage return, as Rust `str::lines` does per line. -/
def stripCR (l : List Char) : List Char :=
  if l.getLast? = some (Char.ofNat 13) then l.dropLast else l

/-- Embedding of Rust `str::lines`: split on newline, drop the final empty
segment produced by a trailing newline, strip one trailing CR per line. -/
def rustLines (s : String) : List String :=
  let ps := splitChar (Char.ofNat 10) s.data
  let ps := if ps.getLast? = some [] then ps.dropLast else ps
  ps.map (fun l => ⟨stripCR l⟩)

/-- Embedding of Rust `str::split_once(c)`: split at the first occurrence of
the character, returning the parts before and after it, or nothing when the
character does not occur. -/
def splitOnceChar (s : String) (c : Char) : Option (String × String) :=
  if s.data.contains c then
    some (⟨s.data.takeWhile (fun a => a != c)⟩, ⟨(s.data.dropWhile (fun a => a != c)).tail⟩)
  else
    none

/-! ## types.rs: status enums, limits, mounts -/

/-- Execution status, from `ExecutionStatus` in types.rs. -/
inductive ExecutionStatus where
  | Ok
  | RuntimeError
  | TimeLimitExceeded
  | Signaled
  | InternalError
deriving DecidableEq, Repr

/-- From `ExecutionStatus::from_isolate_status` in types.rs. -/
def ExecutionStatus.from_isolate_status (status : String) : ExecutionStatus :=
  if status = "OK" then .Ok
  else if status = "RE" then .RuntimeError
  else if status = "TO" then .TimeLimitExceeded
  else if status = "SG" then .Signaled
  else if status = "XX" then .InternalError
  else .InternalError

/-- Secondary limit classifier, from `LimitExceeded` in types.rs. -/
inductive LimitExceeded where
  | NotExceeded
  | Time
  | WallTime
  | Memory
  | Output
deriving DecidableEq, Repr

/-- From `LimitExceeded::from_message` in types.rs. -/
def LimitExceeded.from_message (message : Option String) : LimitExceeded :=
  match message with
  | none => .NotExceeded
  | some msg =>
    let msg_lower := strToLower msg
    if strContains msg_lower "time limit" then
      if strContains msg_lower "wall" then .WallTime else .Time
    else if strContains msg_lower "memory" || strContains msg_lower "out of memory" then
      .Memory
    else if strContains msg_lower "output" then
      .Output
    else
      .NotExceeded

/-- From `LimitExceeded::is_exceeded` in types.rs. -/
def LimitExceeded.is_exceeded (l : LimitExceeded) : Bool :=
  match l with
  | .NotExceeded => false
  | _ => true

/-- Resource limits record, from `ResourceLimits` in types.rs.  The `f64`
fields are embedded as rationals (no claim depends on float rounding), the
`u64`/`u32` fields as naturals. -/
structure ResourceLimits where
  time_limit : Option Rat
  wall_time_limit : Option Rat
  memory_limit : Option Nat
  stack_limit : Option Nat
  max_processes : Option Nat
  max_output : Option Nat
  max_open_files : Option Nat
  extra_time : Option Rat
deriving DecidableEq, Repr

/-- From `ResourceLimits::with_overrides` in types.rs: field-by-field,
the override value when present, else the base value. -/
def ResourceLimits.with_overrides (self overrides : ResourceLimits) : ResourceLimits :=
  { time_limit := overrides.time_limit.or self.time_limit
    wall_time_limit := overrides.wall_time_limit.or self.wall_time_limit
    memory_limit := overrides.memory_limit.or self.memory_limit
    stack_limit := overrides.stack_limit.or self.stack_limit
    max_processes := overrides.max_processes.or self.max_processes
    max_output := overrides.max_output.or self.max_output
    max_open_files := overrides.max_open_files.or self.max_open_files
    extra_time := overrides.extra_time.or self.extra_time }

/-- The all-absent `ResourceLimits` record. -/
def ResourceLimits.empty : ResourceLimits :=
  ⟨none, none, none, none, none, none, none, none⟩

/-- Mount configuration, from `MountConfig` in types.rs. -/
structure MountConfig where
  source : String
  target : String
  writable : Bool
  optional : Bool
deriving DecidableEq, Repr

/-! ## isolate/meta.rs: the meta-file parser and classifier -/

/-- Parsed meta file, from `MetaFile` in isolate/meta.rs.  The `HashMap` is
embedded as the list of inserted key-value pairs in insertion order; lookup
takes the last binding, which is exactly the overwrite behaviour of
`HashMap::insert` followed by `get`. -/
structure MetaFile where
  entries : List (String × String)
deriving DecidableEq, Repr

/-- The contribution of one meta-file line, following the loop body of
`MetaFile::parse`: trim the line, skip it when empty, split at the first
colon, trim key and value, keep the pair when the key is non-empty. -/
def line_entry (line : String) : Option (String × String) :=
  let t := strTrim line
  if t = "" then none
  else
    match splitOnceChar t (Char.ofNat 58) with
    | some (k, v) =>
      let k := strTrim k
      let v := strTrim v
      if k ≠ "" then some (k, v) else none
    | none => none

/-- From `MetaFile::parse` in isolate/meta.rs (the lenient parser). -/
def MetaFile.parse (content : String) : MetaFile :=
  ⟨(rustLines content).filterMap line_entry⟩

/-- From `MetaFile::get`, with the last-wins lookup of `HashMap`. -/
def MetaFile.get (m : MetaFile) (key : String) : Option String :=
  (m.entries.reverse.find? (fun p => p.1 == key)).map Prod.snd

/-- The trimmed value of the last key:value line of the input carrying the
given key: `line_entry` maps each well-formed line to its (trimmed key,
trimmed value) pair in line order, so the last pair surviving the key filter
comes from the last such line. -/
def last_value (content : String) (key : String) : Option String :=
  ((((rustLines content).filterMap line_entry).filter (fun p => p.1 == key)).getLast?).map
    Prod.snd

/-- From `MetaFile::status`: parse the `status` entry, absence means `Ok`. -/
def MetaFile.status (m : MetaFile) : ExecutionStatus :=
  ((m.get "status").map ExecutionStatus.from_isolate_status).getD .Ok

/-- From `MetaFile::message`. -/
def MetaFile.message (m : MetaFile) : Option String :=
  m.get "message"

/-- From `MetaFile::limit_exceeded` in isolate/meta.rs. -/
def MetaFile.limit_exceeded (m : MetaFile) : LimitExceeded :=
  let status := m.status
  let message := m.message
  let from_msg := LimitExceeded.from_message message
  if from_msg.is_exceeded then from_msg
  else if status = .TimeLimitExceeded then .Time
  else .NotExceeded

/-- The classification rule exactly as the specification states it: inspect
the lowercased message first (time limit and wall, time limit, memory or out
of memory, output, in that order); when the message yields nothing and the
parsed status is `TimeLimitExceeded` the answer is `Time`; otherwise
`NotExceeded`. -/
def limit_exceeded_spec (m : MetaFile) : LimitExceeded :=
  let msgCase : LimitExceeded :=
    match m.message with
    | none => .NotExceeded
    | some msg =>
      let lower := strToLower msg
      if strContains lower "time limit" && strContains lower "wall" then .WallTime
      else if strContains lower "time limit" then .Time
      else if strContains lower "memory" || strContains lower "out of memory" then .Memory
      else if strContains lower "output" then .Output
      else .NotExceeded
  if msgCase ≠ .NotExceeded then msgCase
  else if m.status = .TimeLimitExceeded then .Time
  else .NotExceeded

/-! ## isolate/command.rs: the supervisor command builder -/

/-- The three supervisor actions, from `IsolateAction` in isolate/command.rs. -/
inductive IsolateAction where
  | Init
  | Run
  | Cleanup
deriving DecidableEq, Repr

/-- Builder state, from `IsolateCommand` in isolate/command.rs.  Paths are
embedded as strings, the environment `HashMap` as its list of pairs in
iteration order (no claim depends on that order). -/
structure IsolateCommand where
  isolate_path : String
  action : IsolateAction
  box_id : Nat
  limits : ResourceLimits
  mounts : List MountConfig
  env : List (String × String)
  env_inherit : List String
  full_env : Bool
  meta_file : Option String
  stdin : Option String
  stdout : Option String
  stderr : Option String
  working_dir : Option String
  command : List String
  cgroup : Bool

/-- One optional flag segment: `if let Some(x) = o { args.push(flag + render x) }`. -/
def optSeg {α : Type} (flag : String) (render : α → String) (o : Option α) : List String :=
  match o with
  | some x => [flag ++ render x]
  | none => []

/-- The memory-limit segment of `IsolateCommand::build`: `--cg-mem=<k>` in
cgroup mode, `--mem=<k>` otherwise, nothing when the limit is absent. -/
def memSeg (cgroup : Bool) (o : Option Nat) : List String :=
  match o with
  | some memory => if cgroup then ["--cg-mem=" ++ toString memory] else ["--mem=" ++ toString memory]
  | none => []

/-- The resource-limit flags of the Run action, in the emission order of
`IsolateCommand::build` (isolate/command.rs lines 170-198). -/
def limit_args (limits : ResourceLimits) (cgroup : Bool) : List String :=
  optSeg "--time=" toString limits.time_limit
    ++ optSeg "--wall-time=" toString limits.wall_time_limit
    ++ optSeg "--extra-time=" toString limits.extra_time
    ++ memSeg cgroup limits.memory_limit
    ++ optSeg "--stack=" toString limits.stack_limit
    ++ optSeg "--processes=" toString limits.max_processes
    ++ optSeg "--fsize=" toString limits.max_output
    ++ optSeg "--open-files=" toString limits.max_open_files

/-- The mount flags of the Run action (isolate/command.rs lines 200-214):
optional mounts with a missing source are skipped, otherwise
`--dir=<target>=<source>[:rw][:maybe]`.  `fsExists` stands for
`std::path::Path::exists` on the host. -/
def mount_args (fsExists : String → Bool) (mounts : List MountConfig) : List String :=
  mounts.filterMap (fun mount =>
    if mount.optional && !(fsExists mount.source) then none
    else
      some ("--dir="
        ++ (mount.target ++ ("=" ++ (mount.source
          ++ ((if mount.writable then ":rw" else "") ++ (if mount.optional then ":maybe" else "")))))))

/-- The environment flags of the Run action (isolate/command.rs lines 216-225). -/
def env_args (c : IsolateCommand) : List String :=
  (if c.full_env then ["--full-env"] else [])
    ++ c.env.map (fun kv => "--env=" ++ (kv.1 ++ ("=" ++ kv.2)))
    ++ c.env_inherit.map (fun key => "--env=" ++ key)

/-- Meta file, I/O redirection and working-directory flags of the Run action
(isolate/command.rs lines 227-246). -/
def io_args (c : IsolateCommand) : List String :=
  optSeg "--meta=" id c.meta_file
    ++ optSeg "--stdin=" id c.stdin
    ++ optSeg "--stdout=" id c.stdout
    ++ optSeg "--stderr=" id c.stderr
    ++ optSeg "--chdir=" id c.working_dir

/-- Everything the Run action emits between `--run` and the `--` separator. -/
def run_opts (fsExists : String → Bool) (c : IsolateCommand) : List String :=
  limit_args c.limits c.cgroup ++ mount_args fsExists c.mounts ++ env_args c ++ io_args c

/-- From `IsolateCommand::build` in isolate/command.rs: the full argument
vector, starting with the supervisor path and `--box-id`, then `--cg` when
cgroup mode is on, then the action with its options. -/
def IsolateCommand.build (fsExists : String → Bool) (c : IsolateCommand) : List String :=
  [c.isolate_path, "--box-id=" ++ toString c.box_id]
    ++ (if c.cgroup then ["--cg"] else [])
    ++ (match c.action with
        | .Init => ["--init"]
        | .Cleanup => ["--cleanup"]
        | .Run => ["--run"] ++ run_opts fsExists c ++ ["--"] ++ c.command)

/-- Number of arguments in a list that start with a given flag stem. -/
def flagCount (p : String) (args : List String) : Nat :=
  args.countP (fun a => strStartsWith a p)

/-- A concrete Run-action builder state, used to instantiate theorems. -/
def sampleRunCommand : IsolateCommand :=
  { isolate_path := "isolate", action := .Run, box_id := 0,
    limits := ResourceLimits.empty, mounts := [], env := [], env_inherit := [],
    full_env := false, meta_file := none, stdin := none, stdout := none,
    stderr := none, working_dir := none, command := ["./main"], cgroup := false }

/-- A concrete Init-action builder state, used to instantiate theorems. -/
def sampleInitCommand : IsolateCommand :=
  { sampleRunCommand with action := .Init }

/-! ## isolate/mod.rs and isolate/box_manager.rs: errors, paths, cleanup, pool -/

/-- Errors, from `IsolateError` in isolate/mod.rs (only the constructors the
embedded code fragments can produce). -/
inductive IsolateError where
  | InvalidPath (message : String)
  | CommandFailed (message : String)
  | CleanupFailed (id : Nat) (message : String)
deriving DecidableEq, Repr

/-- Embedding of `PathBuf::push` with a non-absolute component on Unix:
append, inserting a separating slash unless the base is empty or already ends
with one.  The absolute-component case of `push` never arises in the embedded
call sites, because each of them first rejects names starting with a slash. -/
def pathJoin (base comp : String) : String :=
  if base.data = [] ∨ base.data.getLast? = some (Char.ofNat 47) then base ++ comp
  else base ++ ("/" ++ comp)

/-- From `IsolateBox::file_path` in isolate/box_manager.rs: reject names
containing `..` or starting with a slash, else the host path
box_dir/box/<name>. -/
def IsolateBox.file_path (box_path : String) (name : String) : Except IsolateError String :=
  if strContains name ".." || strStartsWith name "/" then
    .error (.InvalidPath ("path traversal not allowed: " ++ name))
  else
    .ok (pathJoin (pathJoin box_path "box") name)

/-- From `IsolateBox::sandbox_path` in isolate/box_manager.rs: same guard,
else the sandbox-internal path /box/<name>. -/
def IsolateBox.sandbox_path (name : String) : Except IsolateError String :=
  if strContains name ".." || strStartsWith name "/" then
    .error (.InvalidPath ("path traversal not allowed: " ++ name))
  else
    .ok (pathJoin "/box" name)

/-- The cleanup-relevant state of an `IsolateBox`: its `initialized` flag. -/
structure BoxState where
  initialized : Bool
deriving DecidableEq, Repr

/-- From `IsolateBox::cleanup` in isolate/box_manager.rs.  The supervisor
subprocess is abstracted by `supervisorOk` (whether its exit status was
success) and `stderr` (its captured error stream).  Returns the method
result, the post-state, and whether the supervisor Cleanup command was
invoked at all. -/
def IsolateBox.cleanup (b : BoxState) (id : Nat) (supervisorOk : Bool) (stderr : String) :
    Except IsolateError Unit × BoxState × Bool :=
  if b.initialized = false then (.ok (), b, false)
  else if supervisorOk then (.ok (), { initialized := false }, true)
  else (.error (.CleanupFailed id stderr), b, true)

/-- From the `Drop` implementation of `IsolateBox`: the destructor spawns a
best-effort supervisor Cleanup call exactly when the box is still
initialized. -/
def IsolateBox.drop_invokes (b : BoxState) : Bool :=
  b.initialized

/-- From `resolve_command` in isolate/mod.rs.  The host environment is
abstracted by `path_var` (the PATH variable after `unwrap_or_default`),
`fsExists` (`Path::exists`) and `canonicalize` (`fs::canonicalize`, `none`
when it fails). -/
def resolve_command (path_var : String) (fsExists : String → Bool)
    (canonicalize : String → Option String) (command : List String) :
    Except IsolateError (List String) :=
  match command with
  | [] => .ok []
  | first :: rest =>
    if strContains first "/" then .ok (first :: rest)
    else
      match (splitColon path_var).find? (fun dir => fsExists (pathJoin dir first)) with
      | some dir =>
        let candidate := pathJoin dir first
        .ok (((canonicalize candidate).getD candidate) :: rest)
      | none =>
        .error (.CommandFailed ("command '" ++ (first ++ "' not found in PATH")))

/-! ## box_manager.rs: the box pool -/

/-- The modulus of u32 arithmetic. -/
def U32 : Nat := 4294967296

/-- From `BoxPool::acquire` in isolate/box_manager.rs lines 341-345: the
handed-out id is `start_id + (counter - start_id) % count`, computed in
wrapping u32 arithmetic (`fetch_add` wraps, and release-mode subtraction and
addition wrap).  `counter` is the value the atomic fetch-add returned.  The
division by `count` is only ever reached with a positive count, because a
pool with zero permits never grants an acquisition. -/
def next_box_id (start_id count counter : Nat) : Nat :=
  (start_id + ((counter + U32 - start_id) % U32) % count) % U32

/-- The two pool events visible to the permit semaphore. -/
inductive PoolEvent where
  | acquire
  | release
deriving DecidableEq, Repr

/-- The pool's permit semaphore as a transition system.  The state is
(available permits, outstanding boxes): `acquire` consumes a permit (no
transition exists while none is available — the caller awaits), and dropping
an acquired box releases its permit. -/
def pool_step : Nat × Nat → PoolEvent → Option (Nat × Nat)
  | (avail, out), .acquire => if avail = 0 then none else some (avail - 1, out + 1)
  | (avail, out), .release => if out = 0 then none else some (avail + 1, out - 1)

/-- Run a sequence of pool events from a state. -/
def pool_run (s : Nat × Nat) : List PoolEvent → Option (Nat × Nat)
  | [] => some s
  | e :: es => (pool_step s e).bind (fun s2 => pool_run s2 es)

/-! ## runner/execute.rs: execution results and the memory-limit refinement -/

/-- Execution result record, from `ExecutionResult` in types.rs.  Byte
buffers are embedded as lists of naturals. -/
structure ExecutionResult where
  status : ExecutionStatus
  limit_exceeded : LimitExceeded
  time : Rat
  wall_time : Rat
  memory : Nat
  cg_memory : Option Nat
  max_rss : Option Nat
  exit_code : Option Int
  signal : Option Int
  message : Option String
  stdout : Option (List Nat)
  stderr : Option (List Nat)
deriving DecidableEq, Repr

/-- Modelled from the spec: `ExecutionResult::detect_memory_limit` is invoked
by the runner (runner/execute.rs line 94) on the parsed result whenever a
memory limit was configured, but its definition is not among the provided
sources.  Per the spec it upgrades `limit_exceeded` to `Memory` when the
reported memory approaches the configured limit; the spec leaves the exact
threshold unspecified, so the proximity test is a parameter. -/
def ExecutionResult.detect_memory_limit (approaches : Nat → Nat → Bool)
    (r : ExecutionResult) (mem_limit : Nat) : ExecutionResult :=
  if approaches r.memory mem_limit then { r with limit_exceeded := .Memory } else r

/-- From `execute` in runner/execute.rs lines 23-30: the effective limits are
the config defaults, overridden by the language run limits when present,
overridden by the user limits when present. -/
def effective_limits (default_limits : ResourceLimits)
    (lang_limits user_limits : Option ResourceLimits) : ResourceLimits :=
  let e := default_limits
  let e := match lang_limits with | some l => e.with_overrides l | none => e
  match user_limits with | some u => e.with_overrides u | none => e

/-- From `execute` in runner/execute.rs lines 69-95: after the batch run is
parsed into a result, when the effective memory limit is present the runner
applies the memory-limit detection to the result. -/
def execute_post (approaches : Nat → Nat → Bool) (eff : ResourceLimits)
    (parsed : ExecutionResult) : ExecutionResult :=
  match eff.memory_limit with
  | some mem_limit => parsed.detect_memory_limit approaches mem_limit
  | none => parsed

/-- A concrete execution result, used to instantiate theorems. -/
def sampleResult : ExecutionResult :=
  { status := .Ok, limit_exceeded := .NotExceeded, time := 0, wall_time := 0,
    memory := 999, cg_memory := none, max_rss := none, exit_code := some 0,
    signal := none, message := none, stdout := none, stderr := none }

end Silicube

namespace Silicube

/-! ## Theorems for claims C1, C4 -/

/-- C1: for every meta file, `limit_exceeded` is classified by first
inspecting the lowercased message (time limit with wall gives WallTime, time
limit alone gives Time, memory or out of memory gives Memory, output gives
Output); when the message yields nothing and the parsed status is
`TimeLimitExceeded` the result is `Time`, otherwise `NotExceeded`. -/
theorem limit_exceeded_matches_spec (m : MetaFile) :
    m.limit_exceeded = limit_exceeded_spec m := by
  unfold MetaFile.limit_exceeded limit_exceeded_spec LimitExceeded.from_message
  cases hmsg : m.message with
  | none =>
    simp [LimitExceeded.is_exceeded]
  | some msg =>
    cases h1 : strContains (strToLower msg) "time limit" <;>
      cases h2 : strContains (strToLower msg) "wall" <;>
        cases h3 : strContains (strToLower msg) "memory" <;>
          cases h4 : strContains (strToLower msg) "out of memory" <;>
            cases h5 : strContains (strToLower msg) "output" <;>
              simp [LimitExceeded.is_exceeded, h1, h2, h3, h4, h5]

/-- C4: merging resource limits yields, field by field, the override value
when present and the base value otherwise, and merging with the all-absent
record returns the base unchanged. -/
theorem with_overrides_fieldwise (base overrides : ResourceLimits) :
    (base.with_overrides overrides).time_limit
        = (match overrides.time_limit with | some v => some v | none => base.time_limit)
    ∧ (base.with_overrides overrides).wall_time_limit
        = (match overrides.wall_time_limit with | some v => some v | none => base.wall_time_limit)
    ∧ (base.with_overrides overrides).memory_limit
        = (match overrides.memory_limit with | some v => some v | none => base.memory_limit)
    ∧ (base.with_overrides overrides).stack_limit
        = (match overrides.stack_limit with | some v => some v | none => base.stack_limit)
    ∧ (base.with_overrides overrides).max_processes
        = (match overrides.max_processes with | some v => some v | none => base.max_processes)
    ∧ (base.with_overrides overrides).max_output
        = (match overrides.max_output with | some v => some v | none => base.max_output)
    ∧ (base.with_overrides overrides).max_open_files
        = (match overrides.max_open_files with | some v => some v | none => base.max_open_files)
    ∧ (base.with_overrides overrides).extra_time
        = (match overrides.extra_time with | some v => some v | none => base.extra_time)
    ∧ base.with_overrides ResourceLimits.empty = base := by
  obtain ⟨f1, f2, f3, f4, f5, f6, f7, f8⟩ := base
  obtain ⟨g1, g2, g3, g4, g5, g6, g7, g8⟩ := overrides
  refine ⟨?_, ?_, ?_, ?_, ?_, ?_, ?_, ?_, ?_⟩ <;>
    simp [ResourceLimits.with_overrides, ResourceLimits.empty, Option.or] <;>
      first
        | (cases g1 <;> rfl)
        | (cases g2 <;> rfl)
        | (cases g3 <;> rfl)
        | (cases g4 <;> rfl)
        | (cases g5 <;> rfl)
        | (cases g6 <;> rfl)
        | (cases g7 <;> rfl)
        | (cases g8 <;> rfl)

/-! ### String-stem helper lemmas for the command builder -/

theorem strData_append (s t : String) : (s ++ t).data = s.data ++ t.data := rfl

theorem isPrefixOf_append_self (l t : List Char) : l.isPrefixOf (l ++ t) = true := by
  induction l with
  | nil => simp [List.isPrefixOf]
  | cons a as ih => simp [List.isPrefixOf, ih]

theorem strStartsWith_append_self (p t : String) : strStartsWith (p ++ t) p = true := by
  rw [strStartsWith, strData_append]
  exact isPrefixOf_append_self p.data t.data

theorem isPrefixOf_append_or (p h t : List Char) (hp : p.isPrefixOf (h ++ t) = true) :
    p.isPrefixOf h = true ∨ h.isPrefixOf p = true := by
  induction h generalizing p with
  | nil => right; simp [List.isPrefixOf]
  | cons a as ih =>
    cases p with
    | nil => left; simp [List.isPrefixOf]
    | cons b bs =>
      rw [List.cons_append] at hp
      simp only [List.isPrefixOf, Bool.and_eq_true, beq_iff_eq] at hp ⊢
      obtain ⟨hab, hrest⟩ := hp
      rcases ih bs hrest with h1 | h1
      · exact Or.inl ⟨hab, h1⟩
      · exact Or.inr ⟨hab.symm, h1⟩

theorem strStartsWith_append_eq_false (h p : String)
    (hc : (p.data.isPrefixOf h.data || h.data.isPrefixOf p.data) = false) (t : String) :
    strStartsWith (h ++ t) p = false := by
  rw [strStartsWith, strData_append]
  cases hx : p.data.isPrefixOf (h.data ++ t.data) with
  | false => rfl
  | true =>
    rcases isPrefixOf_append_or _ _ _ hx with h1 | h1 <;> simp [h1] at hc

theorem flagCount_append (p : String) (l₁ l₂ : List String) :
    flagCount p (l₁ ++ l₂) = flagCount p l₁ + flagCount p l₂ :=
  List.countP_append _ _ _

theorem flagCount_optSeg_self {α : Type} (flag : String) (render : α → String) (o : Option α) :
    flagCount flag (optSeg flag render o) = match o with | some _ => 1 | none => 0 := by
  cases o <;>
    simp [optSeg, flagCount, List.countP_cons, List.countP_nil, strStartsWith_append_self]

theorem flagCount_optSeg_ne {α : Type} (flag p : String)
    (hc : (p.data.isPrefixOf flag.data || flag.data.isPrefixOf p.data) = false)
    (render : α → String) (o : Option α) :
    flagCount p (optSeg flag render o) = 0 := by
  cases o <;>
    simp [optSeg, flagCount, List.countP_cons, List.countP_nil,
      strStartsWith_append_eq_false flag p hc]

theorem flagCount_memSeg_ne (p : String)
    (hc1 : (p.data.isPrefixOf "--mem=".data || "--mem=".data.isPrefixOf p.data) = false)
    (hc2 : (p.data.isPrefixOf "--cg-mem=".data || "--cg-mem=".data.isPrefixOf p.data) = false)
    (cgroup : Bool) (o : Option Nat) :
    flagCount p (memSeg cgroup o) = 0 := by
  cases o <;> cases cgroup <;>
    simp [memSeg, flagCount, List.countP_cons, List.countP_nil,
      strStartsWith_append_eq_false _ _ hc1, strStartsWith_append_eq_false _ _ hc2]

theorem flagCount_memSeg_mem (cgroup : Bool) (o : Option Nat) :
    flagCount "--mem=" (memSeg cgroup o)
      = match o with | some _ => if cgroup then 0 else 1 | none => 0 := by
  cases o <;> cases cgroup <;>
    simp [memSeg, flagCount, List.countP_cons, List.countP_nil,
      strStartsWith_append_self,
      strStartsWith_append_eq_false "--cg-mem=" "--mem=" (by decide)]

theorem flagCount_memSeg_cgmem (cgroup : Bool) (o : Option Nat) :
    flagCount "--cg-mem=" (memSeg cgroup o)
      = match o with | some _ => if cgroup then 1 else 0 | none => 0 := by
  cases o <;> cases cgroup <;>
    simp [memSeg, flagCount, List.countP_cons, List.countP_nil,
      strStartsWith_append_self,
      strStartsWith_append_eq_false "--mem=" "--cg-mem=" (by decide)]

theorem flagCount_mount_args (p : String)
    (hc : (p.data.isPrefixOf "--dir=".data || "--dir=".data.isPrefixOf p.data) = false)
    (fsExists : String → Bool) (mounts : List MountConfig) :
    flagCount p (mount_args fsExists mounts) = 0 := by
  rw [flagCount, List.countP_eq_zero]
  intro a ha
  rw [mount_args, List.mem_filterMap] at ha
  obtain ⟨m, _, hfm⟩ := ha
  split at hfm
  · cases hfm
  · injection hfm with h
    subst h
    simp [strStartsWith_append_eq_false _ _ hc]

theorem flagCount_env_args (p : String)
    (hc : (p.data.isPrefixOf "--env=".data || "--env=".data.isPrefixOf p.data) = false)
    (hfe : strStartsWith "--full-env" p = false)
    (c : IsolateCommand) : flagCount p (env_args c) = 0 := by
  rw [flagCount, List.countP_eq_zero]
  intro a ha
  rw [env_args] at ha
  simp only [List.mem_append, List.mem_map] at ha
  rcases ha with (ha | ⟨kv, _, rfl⟩) | ⟨k, _, rfl⟩
  · split at ha
    · simp only [List.mem_singleton] at ha
      subst ha
      simp [hfe]
    · simp at ha
  · simp [strStartsWith_append_eq_false _ _ hc]
  · simp [strStartsWith_append_eq_false _ _ hc]

theorem flagCount_io_args (p : String)
    (h1 : (p.data.isPrefixOf "--meta=".data || "--meta=".data.isPrefixOf p.data) = false)
    (h2 : (p.data.isPrefixOf "--stdin=".data || "--stdin=".data.isPrefixOf p.data) = false)
    (h3 : (p.data.isPrefixOf "--stdout=".data || "--stdout=".data.isPrefixOf p.data) = false)
    (h4 : (p.data.isPrefixOf "--stderr=".data || "--stderr=".data.isPrefixOf p.data) = false)
    (h5 : (p.data.isPrefixOf "--chdir=".data || "--chdir=".data.isPrefixOf p.data) = false)
    (c : IsolateCommand) : flagCount p (io_args c) = 0 := by
  simp only [io_args, flagCount_append,
    flagCount_optSeg_ne "--meta=" p h1, flagCount_optSeg_ne "--stdin=" p h2,
    flagCount_optSeg_ne "--stdout=" p h3, flagCount_optSeg_ne "--stderr=" p h4,
    flagCount_optSeg_ne "--chdir=" p h5]

theorem count_time_run_opts (fsExists : String → Bool) (c : IsolateCommand) :
    flagCount "--time=" (run_opts fsExists c)
      = match c.limits.time_limit with | some _ => 1 | none => 0 := by
  simp only [run_opts, limit_args, flagCount_append, flagCount_optSeg_self,
    flagCount_optSeg_ne "--wall-time=" "--time=" (by decide),
    flagCount_optSeg_ne "--extra-time=" "--time=" (by decide),
    flagCount_memSeg_ne "--time=" (by decide) (by decide),
    flagCount_optSeg_ne "--stack=" "--time=" (by decide),
    flagCount_optSeg_ne "--processes=" "--time=" (by decide),
    flagCount_optSeg_ne "--fsize=" "--time=" (by decide),
    flagCount_optSeg_ne "--open-files=" "--time=" (by decide),
    flagCount_mount_args "--time=" (by decide),
    flagCount_env_args "--time=" (by decide) (by decide),
    flagCount_io_args "--time=" (by decide) (by decide) (by decide) (by decide) (by decide)]
  cases c.limits.time_limit <;> simp

theorem count_wall_time_run_opts (fsExists : String → Bool) (c : IsolateCommand) :
    flagCount "--wall-time=" (run_opts fsExists c)
      = match c.limits.wall_time_limit with | some _ => 1 | none => 0 := by
  simp only [run_opts, limit_args, flagCount_append, flagCount_optSeg_self,
    flagCount_optSeg_ne "--time=" "--wall-time=" (by decide),
    flagCount_optSeg_ne "--extra-time=" "--wall-time=" (by decide),
    flagCount_memSeg_ne "--wall-time=" (by decide) (by decide),
    flagCount_optSeg_ne "--stack=" "--wall-time=" (by decide),
    flagCount_optSeg_ne "--processes=" "--wall-time=" (by decide),
    flagCount_optSeg_ne "--fsize=" "--wall-time=" (by decide),
    flagCount_optSeg_ne "--open-files=" "--wall-time=" (by decide),
    flagCount_mount_args "--wall-time=" (by decide),
    flagCount_env_args "--wall-time=" (by decide) (by decide),
    flagCount_io_args "--wall-time=" (by decide) (by decide) (by decide) (by decide) (by decide)]
  cases c.limits.wall_time_limit <;> simp

theorem count_extra_time_run_opts (fsExists : String → Bool) (c : IsolateCommand) :
    flagCount "--extra-time=" (run_opts fsExists c)
      = match c.limits.extra_time with | some _ => 1 | none => 0 := by
  simp only [run_opts, limit_args, flagCount_append, flagCount_optSeg_self,
    flagCount_optSeg_ne "--time=" "--extra-time=" (by decide),
    flagCount_optSeg_ne "--wall-time=" "--extra-time=" (by decide),
    flagCount_memSeg_ne "--extra-time=" (by decide) (by decide),
    flagCount_optSeg_ne "--stack=" "--extra-time=" (by decide),
    flagCount_optSeg_ne "--processes=" "--extra-time=" (by decide),
    flagCount_optSeg_ne "--fsize=" "--extra-time=" (by decide),
    flagCount_optSeg_ne "--open-files=" "--extra-time=" (by decide),
    flagCount_mount_args "--extra-time=" (by decide),
    flagCount_env_args "--extra-time=" (by decide) (by decide),
    flagCount_io_args "--extra-time=" (by decide) (by decide) (by decide) (by decide) (by decide)]
  cases c.limits.extra_time <;> simp

theorem count_mem_run_opts (fsExists : String → Bool) (c : IsolateCommand) :
    flagCount "--mem=" (run_opts fsExists c)
      = match c.limits.memory_limit with
        | some _ => if c.cgroup then 0 else 1
        | none => 0 := by
  simp only [run_opts, limit_args, flagCount_append, flagCount_memSeg_mem,
    flagCount_optSeg_ne "--time=" "--mem=" (by decide),
    flagCount_optSeg_ne "--wall-time=" "--mem=" (by decide),
    flagCount_optSeg_ne "--extra-time=" "--mem=" (by decide),
    flagCount_optSeg_ne "--stack=" "--mem=" (by decide),
    flagCount_optSeg_ne "--processes=" "--mem=" (by decide),
    flagCount_optSeg_ne "--fsize=" "--mem=" (by decide),
    flagCount_optSeg_ne "--open-files=" "--mem=" (by decide),
    flagCount_mount_args "--mem=" (by decide),
    flagCount_env_args "--mem=" (by decide) (by decide),
    flagCount_io_args "--mem=" (by decide) (by decide) (by decide) (by decide) (by decide)]
  cases c.limits.memory_limit <;> cases hcg : c.cgroup <;> simp

theorem count_cgmem_run_opts (fsExists : String → Bool) (c : IsolateCommand) :
    flagCount "--cg-mem=" (run_opts fsExists c)
      = match c.limits.memory_limit with
        | some _ => if c.cgroup then 1 else 0
        | none => 0 := by
  simp only [run_opts, limit_args, flagCount_append, flagCount_memSeg_cgmem,
    flagCount_optSeg_ne "--time=" "--cg-mem=" (by decide),
    flagCount_optSeg_ne "--wall-time=" "--cg-mem=" (by decide),
    flagCount_optSeg_ne "--extra-time=" "--cg-mem=" (by decide),
    flagCount_optSeg_ne "--stack=" "--cg-mem=" (by decide),
    flagCount_optSeg_ne "--processes=" "--cg-mem=" (by decide),
    flagCount_optSeg_ne "--fsize=" "--cg-mem=" (by decide),
    flagCount_optSeg_ne "--open-files=" "--cg-mem=" (by decide),
    flagCount_mount_args "--cg-mem=" (by decide),
    flagCount_env_args "--cg-mem=" (by decide) (by decide),
    flagCount_io_args "--cg-mem=" (by decide) (by decide) (by decide) (by decide) (by decide)]
  cases c.limits.memory_limit <;> cases hcg : c.cgroup <;> simp

theorem count_stack_run_opts (fsExists : String → Bool) (c : IsolateCommand) :
    flagCount "--stack=" (run_opts fsExists c)
      = match c.limits.stack_limit with | some _ => 1 | none => 0 := by
  simp only [run_opts, limit_args, flagCount_append, flagCount_optSeg_self,
    flagCount_optSeg_ne "--time=" "--stack=" (by decide),
    flagCount_optSeg_ne "--wall-time=" "--stack=" (by decide),
    flagCount_optSeg_ne "--extra-time=" "--stack=" (by decide),
    flagCount_memSeg_ne "--stack=" (by decide) (by decide),
    flagCount_optSeg_ne "--processes=" "--stack=" (by decide),
    flagCount_optSeg_ne "--fsize=" "--stack=" (by decide),
    flagCount_optSeg_ne "--open-files=" "--stack=" (by decide),
    flagCount_mount_args "--stack=" (by decide),
    flagCount_env_args "--stack=" (by decide) (by decide),
    flagCount_io_args "--stack=" (by decide) (by decide) (by decide) (by decide) (by decide)]
  cases c.limits.stack_limit <;> simp

theorem count_processes_run_opts (fsExists : String → Bool) (c : IsolateCommand) :
    flagCount "--processes=" (run_opts fsExists c)
      = match c.limits.max_processes with | some _ => 1 | none => 0 := by
  simp only [run_opts, limit_args, flagCount_append, flagCount_optSeg_self,
    flagCount_optSeg_ne "--time=" "--processes=" (by decide),
    flagCount_optSeg_ne "--wall-time=" "--processes=" (by decide),
    flagCount_optSeg_ne "--extra-time=" "--processes=" (by decide),
    flagCount_memSeg_ne "--processes=" (by decide) (by decide),
    flagCount_optSeg_ne "--stack=" "--processes=" (by decide),
    flagCount_optSeg_ne "--fsize=" "--processes=" (by decide),
    flagCount_optSeg_ne "--open-files=" "--processes=" (by decide),
    flagCount_mount_args "--processes=" (by decide),
    flagCount_env_args "--processes=" (by decide) (by decide),
    flagCount_io_args "--processes=" (by decide) (by decide) (by decide) (by decide) (by decide)]
  cases c.limits.max_processes <;> simp

theorem count_fsize_run_opts (fsExists : String → Bool) (c : IsolateCommand) :
    flagCount "--fsize=" (run_opts fsExists c)
      = match c.limits.max_output with | some _ => 1 | none => 0 := by
  simp only [run_opts, limit_args, flagCount_append, flagCount_optSeg_self,
    flagCount_optSeg_ne "--time=" "--fsize=" (by decide),
    flagCount_optSeg_ne "--wall-time=" "--fsize=" (by decide),
    flagCount_optSeg_ne "--extra-time=" "--fsize=" (by decide),
    flagCount_memSeg_ne "--fsize=" (by decide) (by decide),
    flagCount_optSeg_ne "--stack=" "--fsize=" (by decide),
    flagCount_optSeg_ne "--processes=" "--fsize=" (by decide),
    flagCount_optSeg_ne "--open-files=" "--fsize=" (by decide),
    flagCount_mount_args "--fsize=" (by decide),
    flagCount_env_args "--fsize=" (by decide) (by decide),
    flagCount_io_args "--fsize=" (by decide) (by decide) (by decide) (by decide) (by decide)]
  cases c.limits.max_output <;> simp

theorem count_open_files_run_opts (fsExists : String → Bool) (c : IsolateCommand) :
    flagCount "--open-files=" (run_opts fsExists c)
      = match c.limits.max_open_files with | some _ => 1 | none => 0 := by
  simp only [run_opts, limit_args, flagCount_append, flagCount_optSeg_self,
    flagCount_optSeg_ne "--time=" "--open-files=" (by decide),
    flagCount_optSeg_ne "--wall-time=" "--open-files=" (by decide),
    flagCount_optSeg_ne "--extra-time=" "--open-files=" (by decide),
    flagCount_memSeg_ne "--open-files=" (by decide) (by decide),
    flagCount_optSeg_ne "--stack=" "--open-files=" (by decide),
    flagCount_optSeg_ne "--processes=" "--open-files=" (by decide),
    flagCount_optSeg_ne "--fsize=" "--open-files=" (by decide),
    flagCount_mount_args "--open-files=" (by decide),
    flagCount_env_args "--open-files=" (by decide) (by decide),
    flagCount_io_args "--open-files=" (by decide) (by decide) (by decide) (by decide) (by decide)]
  cases c.limits.max_open_files <;> simp

/-- C2: the Run-action argument vector consists of the fixed header, the
emitted options, the `--` separator, and the user command; among the emitted
options every present `ResourceLimits` field produces exactly one flag with
its stem and every absent field produces none, with the memory limit routed
to `--cg-mem=` in cgroup mode and to `--mem=` otherwise. -/
theorem run_action_flags (fsExists : String → Bool) (c : IsolateCommand)
    (hact : c.action = .Run) :
    c.build fsExists
        = [c.isolate_path, "--box-id=" ++ toString c.box_id]
            ++ (if c.cgroup then ["--cg"] else [])
            ++ (["--run"] ++ run_opts fsExists c ++ ["--"] ++ c.command)
    ∧ flagCount "--time=" (run_opts fsExists c)
        = (match c.limits.time_limit with | some _ => 1 | none => 0)
    ∧ flagCount "--wall-time=" (run_opts fsExists c)
        = (match c.limits.wall_time_limit with | some _ => 1 | none => 0)
    ∧ flagCount "--extra-time=" (run_opts fsExists c)
        = (match c.limits.extra_time with | some _ => 1 | none => 0)
    ∧ flagCount "--mem=" (run_opts fsExists c)
        = (match c.limits.memory_limit with | some _ => if c.cgroup then 0 else 1 | none => 0)
    ∧ flagCount "--cg-mem=" (run_opts fsExists c)
        = (match c.limits.memory_limit with | some _ => if c.cgroup then 1 else 0 | none => 0)
    ∧ flagCount "--stack=" (run_opts fsExists c)
        = (match c.limits.stack_limit with | some _ => 1 | none => 0)
    ∧ flagCount "--processes=" (run_opts fsExists c)
        = (match c.limits.max_processes with | some _ => 1 | none => 0)
    ∧ flagCount "--fsize=" (run_opts fsExists c)
        = (match c.limits.max_output with | some _ => 1 | none => 0)
    ∧ flagCount "--open-files=" (run_opts fsExists c)
        = (match c.limits.max_open_files with | some _ => 1 | none => 0) :=
  ⟨by simp [IsolateCommand.build, hact],
    count_time_run_opts fsExists c, count_wall_time_run_opts fsExists c,
    count_extra_time_run_opts fsExists c, count_mem_run_opts fsExists c,
    count_cgmem_run_opts fsExists c, count_stack_run_opts fsExists c,
    count_processes_run_opts fsExists c, count_fsize_run_opts fsExists c,
    count_open_files_run_opts fsExists c⟩

/-- Witness for C2: the sample Run command has action Run, and the theorem
applies to it, giving zero limit flags for its all-absent limits. -/
theorem run_action_flags_witness :
    sampleRunCommand.action = .Run
    ∧ flagCount "--time=" (run_opts (fun _ => true) sampleRunCommand) = 0
    ∧ flagCount "--mem=" (run_opts (fun _ => true) sampleRunCommand) = 0 := by
  have h := run_action_flags (fun _ => true) sampleRunCommand rfl
  exact ⟨rfl, by simpa [sampleRunCommand, ResourceLimits.empty] using h.2.1,
    by simpa [sampleRunCommand, ResourceLimits.empty] using h.2.2.2.2.1⟩

/-- C8: for every configuration, the Init and Cleanup actions produce exactly
the tokens supervisor, box id, optional `--cg`, and the action flag — three
tokens, or four in cgroup mode — with every other configured option ignored. -/
theorem init_cleanup_args (fsExists : String → Bool) (c : IsolateCommand) :
    (c.action = .Init →
      c.build fsExists
          = [c.isolate_path, "--box-id=" ++ toString c.box_id]
              ++ (if c.cgroup then ["--cg"] else []) ++ ["--init"]
        ∧ (c.build fsExists).length = if c.cgroup then 4 else 3)
    ∧ (c.action = .Cleanup →
      c.build fsExists
          = [c.isolate_path, "--box-id=" ++ toString c.box_id]
              ++ (if c.cgroup then ["--cg"] else []) ++ ["--cleanup"]
        ∧ (c.build fsExists).length = if c.cgroup then 4 else 3) := by
  constructor <;> intro h <;> cases hcg : c.cgroup <;> simp [IsolateCommand.build, h, hcg]

/-- Witness for C8: the sample Init command builds to exactly three tokens. -/
theorem init_cleanup_args_witness :
    sampleInitCommand.action = .Init
    ∧ sampleInitCommand.build (fun _ => true) = ["isolate", "--box-id=0", "--init"]
    ∧ (sampleInitCommand.build (fun _ => true)).length = 3 := by
  have h := (init_cleanup_args (fun _ => true) sampleInitCommand).1 rfl
  refine ⟨rfl, ?_, by simpa [sampleInitCommand, sampleRunCommand] using h.2⟩
  have h1 := h.1
  simpa [sampleInitCommand, sampleRunCommand] using h1

/-! ### Path projections (C3) -/

theorem pathJoin_of_not_slash (base comp : String) (h1 : base.data ≠ [])
    (h2 : base.data.getLast? ≠ some (Char.ofNat 47)) :
    pathJoin base comp = base ++ ("/" ++ comp) := by
  unfold pathJoin
  rw [if_neg]
  rintro (hx | hx)
  · exact h1 hx
  · exact h2 hx

theorem pathJoin_box_ne_nil (bp : String) : (pathJoin bp "box").data ≠ [] := by
  unfold pathJoin
  split <;> simp [strData_append]

theorem pathJoin_box_last (bp : String) :
    (pathJoin bp "box").data.getLast? = some (Char.ofNat 120) := by
  unfold pathJoin
  split <;> rw [strData_append, List.getLast?_append] <;> rfl

/-- C3: both path projections reject a name exactly when it contains `..` or
starts with a slash; every other name is accepted, the host projection gives
box_dir/box/<name>, the sandbox projection gives /box/<name>, and on accepted
names both projections are injective. -/
theorem path_projections (box_path name : String) :
    ((∃ e, IsolateBox.file_path box_path name = .error e)
        ↔ (strContains name ".." || strStartsWith name "/") = true)
    ∧ ((∃ e, IsolateBox.sandbox_path name = .error e)
        ↔ (strContains name ".." || strStartsWith name "/") = true)
    ∧ ((strContains name ".." || strStartsWith name "/") = false →
        IsolateBox.file_path box_path name
            = .ok (pathJoin box_path "box" ++ ("/" ++ name))
          ∧ IsolateBox.sandbox_path name = .ok ("/box/" ++ name))
    ∧ (∀ name2, (strContains name ".." || strStartsWith name "/") = false →
        (strContains name2 ".." || strStartsWith name2 "/") = false →
        (IsolateBox.file_path box_path name = IsolateBox.file_path box_path name2 →
            name = name2)
          ∧ (IsolateBox.sandbox_path name = IsolateBox.sandbox_path name2 →
            name = name2)) := by
  have hform : ∀ n : String,
      pathJoin (pathJoin box_path "box") n = pathJoin box_path "box" ++ ("/" ++ n) := by
    intro n
    refine pathJoin_of_not_slash _ n (pathJoin_box_ne_nil box_path) ?_
    rw [pathJoin_box_last]
    decide
  have hsand : ∀ n : String, pathJoin "/box" n = "/box/" ++ n := by
    intro n
    rw [pathJoin_of_not_slash "/box" n (by decide) (by decide)]
    apply String.ext
    simp [strData_append]
  refine ⟨?_, ?_, ?_, ?_⟩
  · by_cases hc : (strContains name ".." || strStartsWith name "/") = true
    · refine ⟨fun _ => hc, fun _ => ⟨.InvalidPath ("path traversal not allowed: " ++ name), ?_⟩⟩
      simp [IsolateBox.file_path, hc]
    · simp [IsolateBox.file_path, hc]
  · by_cases hc : (strContains name ".." || strStartsWith name "/") = true
    · refine ⟨fun _ => hc, fun _ => ⟨.InvalidPath ("path traversal not allowed: " ++ name), ?_⟩⟩
      simp [IsolateBox.sandbox_path, hc]
    · simp [IsolateBox.sandbox_path, hc]
  · intro hc
    constructor
    · simp only [IsolateBox.file_path, hc, Bool.false_eq_true, if_false]
      rw [hform name]
    · simp only [IsolateBox.sandbox_path, hc, Bool.false_eq_true, if_false]
      rw [hsand name]
  · intro name2 h1 h2
    constructor
    · intro heq
      simp only [IsolateBox.file_path, h1, h2, Bool.false_eq_true, if_false,
        hform, Except.ok.injEq] at heq
      have hd := congrArg String.data heq
      simp only [strData_append] at hd
      exact String.ext (List.append_cancel_left (List.append_cancel_left hd))
    · intro heq
      simp only [IsolateBox.sandbox_path, h1, h2, Bool.false_eq_true, if_false,
        hsand, Except.ok.injEq] at heq
      have hd := congrArg String.data heq
      simp only [strData_append] at hd
      exact String.ext (List.append_cancel_left hd)

/-- Witness for C3: the name main.cpp is accepted, projecting to
/tmp/box0/box/main.cpp on the host and /box/main.cpp in the sandbox. -/
theorem path_projections_witness :
    (strContains "main.cpp" ".." || strStartsWith "main.cpp" "/") = false
    ∧ IsolateBox.file_path "/tmp/box0" "main.cpp" = .ok "/tmp/box0/box/main.cpp"
    ∧ IsolateBox.sandbox_path "main.cpp" = .ok "/box/main.cpp" := by
  have h := (path_projections "/tmp/box0" "main.cpp").2.2.1 (by decide)
  exact ⟨by decide, h.1.trans (congrArg Except.ok (by decide)),
    h.2.trans (congrArg Except.ok (by decide))⟩

/-! ### Cleanup discipline (C9) -/

/-- C9: cleanup on a box whose initialized flag is false returns Ok at once
without invoking the supervisor, and after a successful cleanup the flag is
false, so a second cleanup is a no-op and dropping the box performs no
supervisor call. -/
theorem cleanup_idempotent (b : BoxState) (id : Nat) (ok1 ok2 : Bool) (stderr : String) :
    (b.initialized = false →
      IsolateBox.cleanup b id ok1 stderr = (.ok (), b, false)
        ∧ IsolateBox.drop_invokes b = false)
    ∧ (b.initialized = true →
      (IsolateBox.cleanup b id true stderr).2.1.initialized = false
        ∧ IsolateBox.cleanup (IsolateBox.cleanup b id true stderr).2.1 id ok2 stderr
            = (.ok (), (IsolateBox.cleanup b id true stderr).2.1, false)
        ∧ IsolateBox.drop_invokes (IsolateBox.cleanup b id true stderr).2.1 = false) := by
  obtain ⟨ini⟩ := b
  cases ini <;> simp [IsolateBox.cleanup, IsolateBox.drop_invokes]

/-- Witness for C9: starting from an initialized box, a successful cleanup
followed by a second cleanup is a no-op that does not invoke the supervisor,
and dropping after cleanup invokes nothing. -/
theorem cleanup_idempotent_witness :
    (⟨true⟩ : BoxState).initialized = true
    ∧ IsolateBox.cleanup (IsolateBox.cleanup ⟨true⟩ 0 true "").2.1 0 true ""
        = (.ok (), (IsolateBox.cleanup ⟨true⟩ 0 true "").2.1, false)
    ∧ IsolateBox.drop_invokes (IsolateBox.cleanup ⟨true⟩ 0 true "").2.1 = false := by
  have h := (cleanup_idempotent ⟨true⟩ 0 true true "").2 rfl
  exact ⟨rfl, h.2.1, h.2.2⟩

/-! ### PATH resolution (C10) -/

/-- C10: resolving an empty command vector returns Ok with the vector
unchanged, and the not-found-in-PATH error arises only for a non-empty
command whose first element contains no slash and exists in no directory of
the host PATH. -/
theorem resolve_command_behavior (path_var : String) (fsExists : String → Bool)
    (canonicalize : String → Option String) (command : List String) :
    (command = [] → resolve_command path_var fsExists canonicalize command = .ok command)
    ∧ (∀ e, resolve_command path_var fsExists canonicalize command = .error e →
        ∃ first rest, command = first :: rest
          ∧ strContains first "/" = false
          ∧ (∀ dir ∈ splitColon path_var, fsExists (pathJoin dir first) = false)
          ∧ e = .CommandFailed ("command '" ++ (first ++ "' not found in PATH"))) := by
  constructor
  · rintro rfl
    rfl
  · intro e he
    cases command with
    | nil => simp [resolve_command] at he
    | cons first rest =>
      rw [resolve_command] at he
      split at he
      · exact absurd he (by simp)
      · rename_i hsl
        split at he
        · exact absurd he (by simp)
        · rename_i hfind
          injection he with h
          refine ⟨first, rest, rfl, by simpa using hsl, ?_, h.symm⟩
          intro dir hdir
          simpa using List.find?_eq_none.mp hfind dir hdir

/-- Witness for C10: the empty command resolves to Ok unchanged, and with a
filesystem where nothing exists, resolving a bare name yields exactly the
not-found conclusion. -/
theorem resolve_command_behavior_witness :
    resolve_command "/usr/bin:/bin" (fun _ => false) (fun _ => none) ([] : List String)
        = .ok []
    ∧ ∃ first rest, (["g++"] : List String) = first :: rest
        ∧ strContains first "/" = false
        ∧ (∀ dir ∈ splitColon "/usr/bin:/bin",
            (fun _ => false : String → Bool) (pathJoin dir first) = false)
        ∧ (IsolateError.CommandFailed ("command '" ++ ("g++" ++ "' not found in PATH")))
            = .CommandFailed ("command '" ++ (first ++ "' not found in PATH")) :=
  ⟨(resolve_command_behavior "/usr/bin:/bin" (fun _ => false) (fun _ => none) []).1 rfl,
    by
      exact (resolve_command_behavior "/usr/bin:/bin" (fun _ => false) (fun _ => none)
        ["g++"]).2 (.CommandFailed ("command '" ++ ("g++" ++ "' not found in PATH"))) rfl⟩

/-! ### Meta-file parsing (C5) -/

theorem find?_eq_head?_filter {α : Type} (p : α → Bool) (l : List α) :
    l.find? p = (l.filter p).head? := by
  induction l with
  | nil => rfl
  | cons a as ih =>
    by_cases h : p a = true
    · rw [List.find?_cons_of_pos as h, List.filter_cons_of_pos h, List.head?_cons]
    · rw [List.find?_cons_of_neg as h, List.filter_cons_of_neg h, ih]

theorem reverse_find?_eq_getLast?_filter {α : Type} (p : α → Bool) (l : List α) :
    l.reverse.find? p = (l.filter p).getLast? := by
  rw [find?_eq_head?_filter, List.filter_reverse, List.head?_reverse]

/-- The map lookup of a parsed meta file is exactly the trimmed value of the
last key:value line of the input carrying the key. -/
theorem get_eq_last_value (content : String) (key : String) :
    (MetaFile.parse content).get key = last_value content key := by
  rw [MetaFile.get, MetaFile.parse, last_value, reverse_find?_eq_getLast?_filter]

/-- C5 (amended): the lenient parser is a total function, and for every
key:value line with a non-empty trimmed key, the resulting map contains that
key; its value is the trimmed value of the last key:value line of the input
carrying that key, which is one of those lines. -/
theorem parse_total_and_keeps_keys (content : String) :
    (∃ m, MetaFile.parse content = m)
    ∧ (∀ line ∈ rustLines content, ∀ k v, line_entry line = some (k, v) →
        ∃ v2, (MetaFile.parse content).get k = some v2
          ∧ last_value content k = some v2
          ∧ ∃ line2 ∈ rustLines content, line_entry line2 = some (k, v2)) := by
  refine ⟨⟨_, rfl⟩, ?_⟩
  intro line hline k v hkv
  have hmem : (k, v) ∈ (MetaFile.parse content).entries := by
    rw [MetaFile.parse]
    exact List.mem_filterMap.mpr ⟨line, hline, hkv⟩
  have hsome : ((MetaFile.parse content).entries.reverse.find? (fun q => q.1 == k)).isSome := by
    rw [List.find?_isSome]
    exact ⟨(k, v), List.mem_reverse.mpr hmem, by simp⟩
  obtain ⟨p, hp⟩ := Option.isSome_iff_exists.mp hsome
  obtain ⟨pk, pv⟩ := p
  have hpk : pk = k := by simpa using List.find?_some hp
  subst hpk
  have hpmem : (pk, pv) ∈ (MetaFile.parse content).entries :=
    List.mem_reverse.mp (List.mem_of_find?_eq_some hp)
  have hget : (MetaFile.parse content).get pk = some pv := by
    rw [MetaFile.get, hp]
    rfl
  refine ⟨pv, hget, (get_eq_last_value content pk).symm.trans hget, ?_⟩
  rw [MetaFile.parse] at hpmem
  obtain ⟨line2, hline2, he2⟩ := List.mem_filterMap.mp hpmem
  exact ⟨line2, hline2, he2⟩

/-- Witness for C5: in "time:2.001" the single line is kept, and the key time
maps to the trimmed value of the last line with that key. -/
theorem parse_total_and_keeps_keys_witness :
    ("time:2.001" ∈ rustLines "time:2.001")
    ∧ line_entry "time:2.001" = some ("time", "2.001")
    ∧ ∃ v2, (MetaFile.parse "time:2.001").get "time" = some v2
        ∧ last_value "time:2.001" "time" = some v2
        ∧ ∃ line2 ∈ rustLines "time:2.001", line_entry line2 = some ("time", v2) :=
  ⟨by decide, by decide,
    (parse_total_and_keeps_keys "time:2.001").2 "time:2.001" (by decide)
      "time" "2.001" (by decide)⟩

/-- Counterexample to C5 as stated: in the input "a:1\na:2" the line a:1 is a
key:value line whose trimmed key a is non-empty, yet the resulting map binds
a to the later value 2 and not to this line's trimmed value 1. -/
theorem parse_duplicate_key_counterexample :
    "a:1" ∈ rustLines "a:1\na:2"
    ∧ line_entry "a:1" = some ("a", "1")
    ∧ (MetaFile.parse "a:1\na:2").get "a" = some "2"
    ∧ ¬((MetaFile.parse "a:1\na:2").get "a" = some "1") := by
  refine ⟨by decide, by decide, by decide, by decide⟩

/-! ### Box pool (C6) -/

theorem pool_run_preserves_sum (count : Nat) (evs : List PoolEvent) :
    ∀ s s2 : Nat × Nat, s.1 + s.2 = count → pool_run s evs = some s2 →
      s2.1 + s2.2 = count := by
  induction evs with
  | nil =>
    intro s s2 hs hrun
    rw [pool_run] at hrun
    injection hrun with h
    subst h
    exact hs
  | cons e es ih =>
    intro s s2 hs hrun
    rw [pool_run] at hrun
    cases hstep : pool_step s e with
    | none =>
      rw [hstep] at hrun
      simp at hrun
    | some s3 =>
      rw [hstep, Option.some_bind] at hrun
      refine ih s3 s2 ?_ hrun
      obtain ⟨avail, out⟩ := s
      cases e
      case acquire =>
        rw [pool_step] at hstep
        by_cases hz : avail = 0
        · rw [if_pos hz] at hstep
          cases hstep
        · rw [if_neg hz] at hstep
          injection hstep with h3
          subst h3
          dsimp only at hs ⊢
          omega
      case release =>
        rw [pool_step] at hstep
        by_cases hz : out = 0
        · rw [if_pos hz] at hstep
          cases hstep
        · rw [if_neg hz] at hstep
          injection hstep with h3
          subst h3
          dsimp only at hs ⊢
          omega

/-- C6 (amended): the handed-out id is `start_id + (counter - start_id) mod
count` in wrapping u32 arithmetic — which coincides with the plain formula in
the non-wrapping regime — and, provided `start_id + count` does not exceed
2^32, every computed id lies in the interval [start_id, start_id + count);
moreover every run of the permit semaphore keeps the number of outstanding
boxes at most `count`. -/
theorem box_pool_bounds (S N c : Nat) (evs : List PoolEvent) (s : Nat × Nat) :
    (0 < N → S + N ≤ U32 →
      (S ≤ c → c < U32 → next_box_id S N c = S + (c - S) % N)
      ∧ S ≤ next_box_id S N c ∧ next_box_id S N c < S + N)
    ∧ (pool_run (N, 0) evs = some s → s.2 ≤ N) := by
  constructor
  · intro hN hov
    have hr : ((c + U32 - S) % U32) % N < N := Nat.mod_lt _ hN
    have hlt : S + ((c + U32 - S) % U32) % N < U32 := by omega
    have hid : next_box_id S N c = S + ((c + U32 - S) % U32) % N := by
      rw [next_box_id, Nat.mod_eq_of_lt hlt]
    refine ⟨?_, ?_, ?_⟩
    · intro hSc hcU
      have h1 : c + U32 - S = (c - S) + U32 := by omega
      have h2 : (c + U32 - S) % U32 = c - S := by
        rw [h1, Nat.add_mod_right, Nat.mod_eq_of_lt (by omega)]
      rw [hid, h2]
    · omega
    · omega
  · intro hrun
    have := pool_run_preserves_sum N evs (N, 0) s rfl hrun
    omega

/-- Witness for C6: a pool with start id 10 and count 3; the second
acquisition (counter value 11) yields id 11 inside [10, 13), and after one
acquire event one box is outstanding, at most 3. -/
theorem box_pool_bounds_witness :
    (0 < 3 ∧ 10 + 3 ≤ U32 ∧ 10 ≤ 11 ∧ 11 < U32)
    ∧ next_box_id 10 3 11 = 10 + (11 - 10) % 3
    ∧ 10 ≤ next_box_id 10 3 11 ∧ next_box_id 10 3 11 < 10 + 3
    ∧ (pool_run (3, 0) [PoolEvent.acquire] = some (2, 1) ∧ ((2, 1) : Nat × Nat).2 ≤ 3) := by
  have h := box_pool_bounds 10 3 11 [PoolEvent.acquire] (2, 1)
  have h1 := h.1 (by decide) (by decide)
  exact ⟨⟨by decide, by decide, by decide, by decide⟩,
    h1.1 (by decide) (by decide), h1.2.1, h1.2.2, by decide, h.2 (by decide)⟩

/-- Counterexample to C6 as stated: with start id 4294967295 and count 2, the
second acquisition reads counter value 0 (the u32 counter wrapped after the
first fetch-add) and the wrapping computation hands out id 0, which does not
lie in the interval [4294967295, 4294967297). -/
theorem box_pool_wrap_counterexample :
    next_box_id 4294967295 2 0 = 0 ∧ ¬(4294967295 ≤ 0) := by
  constructor
  · rfl
  · decide

/-! ### Memory-limit refinement (C7) -/

/-- C7: for every batch run whose effective limits carry a memory limit, the
runner applies the memory-limit detection to the parsed result, and the
result's `limit_exceeded` is upgraded to `Memory` whenever the reported
memory approaches the configured limit. -/
theorem memory_limit_upgrade (approaches : Nat → Nat → Bool)
    (default_limits : ResourceLimits) (lang_limits user_limits : Option ResourceLimits)
    (parsed : ExecutionResult) (mem_limit : Nat)
    (hm : (effective_limits default_limits lang_limits user_limits).memory_limit
        = some mem_limit) :
    execute_post approaches (effective_limits default_limits lang_limits user_limits) parsed
        = parsed.detect_memory_limit approaches mem_limit
    ∧ (approaches parsed.memory mem_limit = true →
        (execute_post approaches (effective_limits default_limits lang_limits user_limits)
            parsed).limit_exceeded = .Memory) := by
  constructor
  · rw [execute_post, hm]
  · intro ha
    rw [execute_post, hm]
    simp [ExecutionResult.detect_memory_limit, ha]

/-- Witness for C7: with a configured memory limit of 1000 kB and a proximity
test that fires, the post-processing upgrades the sample result to Memory. -/
theorem memory_limit_upgrade_witness :
    (effective_limits { ResourceLimits.empty with memory_limit := some 1000 }
        none none).memory_limit = some 1000
    ∧ (fun m l => decide (l ≤ m + 1)) sampleResult.memory 1000 = true
    ∧ (execute_post (fun m l => decide (l ≤ m + 1))
        (effective_limits { ResourceLimits.empty with memory_limit := some 1000 } none none)
        sampleResult).limit_exceeded = .Memory := by
  have h := memory_limit_upgrade (fun m l => decide (l ≤ m + 1))
    { ResourceLimits.empty with memory_limit := some 1000 } none none sampleResult 1000 rfl
  exact ⟨rfl, by decide, h.2 (by decide)⟩

end Silicube
